import Mathlib

/-!
Verification of asva-executors (LadderExecutor and InfiniteLoader).

LadderExecutor is translated from the source file (`LadderExecutor.run`);
the base `Executor` class and `InfiniteLoader` are not present in the
source tree, so their behaviour is modelled from the specification, with
each such definition marked `Modelled from the spec:` in its doc comment.

The asynchronous semantics is a small-step machine: external events are
`run` calls and settlements of the single in-flight invocation; each
settlement is processed atomically, mirroring the synchronous execution
of the attached promise handlers in attachment order, and emits a list of
micro-events recording the order of actions inside the settlement.
-/

/-- Outcome of an invocation: the command's deferred result settles with a
success value or with a failure. -/
inductive Outcome (V : Type) where
  | success : V → Outcome V
  | failure : Outcome V
deriving DecidableEq, Repr

def Outcome.isSuccess {V : Type} : Outcome V → Bool
  | .success _ => true
  | .failure => false

/-- Contents of LadderExecutor's queue slot (`this.trigger` in the source):
the parameters to re-run with and the promise id handed to the caller that
queued them (the `resolve` captured by the closure). -/
structure Trigger (P : Type) where
  params : P
  target : Nat
deriving DecidableEq, Repr

/-- Modelled from the spec: ExecutionState owned by one Executor instance
(run count, in-flight count, outcome history booleans). -/
structure ExecState where
  isRunning : Nat
  runCount : Nat
  wasRun : Bool
  wasRunFine : Bool
  wasRunBad : Bool
  wasLastRunFine : Bool
deriving DecidableEq, Repr

/-- State of one LadderExecutor instance together with the promise book:
promise ids are allocated from `nextPromiseId`; `invocations` logs every
started underlying invocation (its promise id and parameters, in start
order); `current` is the in-flight invocation's promise id, if any;
`chains` records every `.then(resolve)` link from a follow-up invocation's
promise to a queued caller's promise; `settledPromises` logs every promise
settlement that has occurred. -/
structure LadderState (P V : Type) where
  exec : ExecState
  trigger : Option (Trigger P)
  nextPromiseId : Nat
  invocations : List (Nat × P)
  current : Option Nat
  chains : List (Nat × Nat)
  settledPromises : List (Nat × Outcome V)
deriving DecidableEq, Repr

/-- The freshly constructed executor: nothing run, empty slot. -/
def initLadder (P V : Type) : LadderState P V :=
  { exec := { isRunning := 0, runCount := 0, wasRun := false,
              wasRunFine := false, wasRunBad := false, wasLastRunFine := true }
    trigger := none
    nextPromiseId := 0
    invocations := []
    current := none
    chains := []
    settledPromises := [] }

/-- Modelled from the spec: Executor.run — invokes the wrapped command
unconditionally, increments `runCount` and `isRunning`, sets `wasRun`, and
returns the command's own deferred result (here: a fresh promise id that
will settle exactly when the invocation settles). -/
def execRun {P V : Type} (s : LadderState P V) (p : P) : Nat × LadderState P V :=
  let pid := s.nextPromiseId
  (pid,
   { s with
     exec := { s.exec with
               isRunning := s.exec.isRunning + 1
               runCount := s.exec.runCount + 1
               wasRun := true }
     nextPromiseId := pid + 1
     invocations := s.invocations ++ [(pid, p)]
     current := some pid })

/-- LadderExecutor.run, translated from the source: if not running,
delegate to Executor's run and return its promise (the success handler
that fires the trigger is reflected in `settle` below); otherwise create
a fresh promise for the caller and overwrite the queue slot with a
trigger holding these parameters and that promise. -/
def LadderExecutor.run {P V : Type} (s : LadderState P V) (p : P) :
    Nat × LadderState P V :=
  if s.exec.isRunning = 0 then
    execRun s p
  else
    let q := s.nextPromiseId
    (q, { s with nextPromiseId := q + 1, trigger := some ⟨p, q⟩ })

/-- Micro-events emitted while one settlement is processed, in execution
order: the invocation's promise settling, a follow-up invocation starting
(recording the queue slot's contents at that exact moment), the queue slot
being written to empty, and a queued caller's promise being resolved
through its `.then(resolve)` chain. -/
inductive MicroEvent (P : Type) where
  | settled : Nat → MicroEvent P
  | started : Nat → P → Option (Trigger P) → MicroEvent P
  | slotCleared : MicroEvent P
  | chainResolved : Nat → MicroEvent P
deriving DecidableEq, Repr

/-- Modelled from the spec: Executor's own settlement bookkeeping, attached
before any LadderExecutor handler — decrement `isRunning`, update the
outcome booleans, and settle the invocation's promise. -/
def bookkeep {P V : Type} (s : LadderState P V) (i : Nat) (o : Outcome V) :
    LadderState P V :=
  { s with
    exec := { s.exec with
              isRunning := s.exec.isRunning - 1
              wasRunFine := s.exec.wasRunFine || o.isSuccess
              wasRunBad := s.exec.wasRunBad || !o.isSuccess
              wasLastRunFine := o.isSuccess }
    current := none
    settledPromises := s.settledPromises ++ [(i, o)] }

/-- The ladder's success handler, translated from the source: evaluate
`this.trigger`, and when a trigger is stored call it — which re-enters
`run` with the stored parameters and chains the new invocation's promise
to the queued caller's promise — and only afterwards write `null` into
the slot. The `started` event records the slot contents at the moment the
follow-up invocation starts. -/
def fireTrigger {P V : Type} (s : LadderState P V) :
    List (MicroEvent P) × LadderState P V :=
  match s.trigger with
  | none => ([MicroEvent.slotCleared], { s with trigger := none })
  | some t =>
    let r := LadderExecutor.run s t.params
    ([MicroEvent.started r.1 t.params (some t), MicroEvent.slotCleared],
     { r.2 with chains := r.2.chains ++ [(r.1, t.target)], trigger := none })

/-- The queued caller's `.then(resolve)` handler: when invocation `i`
settles successfully with `v` and a chain from `i` exists, resolve the
chained caller's promise with `v`. -/
def fireChain {P V : Type} (s : LadderState P V) (i : Nat) (v : V) :
    List (MicroEvent P) × LadderState P V :=
  match s.chains.find? (fun c => c.1 == i) with
  | some c =>
    ([MicroEvent.chainResolved c.2],
     { s with settledPromises := s.settledPromises ++ [(c.2, Outcome.success v)] })
  | none => ([], s)

/-- Settlement of the in-flight invocation: run the attached handlers in
attachment order — Executor bookkeeping first, then (on success only,
since the source attaches only a fulfillment handler) the ladder's
trigger-firing handler, then the queued caller's `.then(resolve)`.
Returns `none` when no invocation is in flight. -/
def settle {P V : Type} (s : LadderState P V) (o : Outcome V) :
    Option (List (MicroEvent P) × LadderState P V) :=
  match s.current with
  | none => none
  | some i =>
    let s0 := bookkeep s i o
    match o with
    | .failure => some ([MicroEvent.settled i], s0)
    | .success v =>
      let r1 := fireTrigger s0
      let r2 := fireChain r1.2 i v
      some (MicroEvent.settled i :: r1.1 ++ r2.1, r2.2)

/-- External events driving one executor: a caller invoking `run`, or the
in-flight invocation settling with an outcome chosen by the environment. -/
inductive Event (P V : Type) where
  | runCall : P → Event P V
  | settleEv : Outcome V → Event P V
deriving DecidableEq, Repr

/-- One external step; `none` when the event is not enabled (settling with
no invocation in flight). -/
def stepEvent {P V : Type} (s : LadderState P V) :
    Event P V → Option (List (MicroEvent P) × LadderState P V)
  | .runCall p => some ([], (LadderExecutor.run s p).2)
  | .settleEv o => settle s o

/-- Run a list of external events from a state. -/
def runTrace {P V : Type} (s : LadderState P V) :
    List (Event P V) → Option (LadderState P V)
  | [] => some s
  | e :: es =>
    match stepEvent s e with
    | none => none
    | some r => runTrace r.2 es

/-- Which kind of load is in flight in an InfiniteLoader. -/
inductive LoadKind where
  | nextLoad
  | refreshLoad
deriving DecidableEq, Repr

/-- Modelled from the spec: InfiniteLoader state — accumulated `items`,
the `pointer` offset for the next page, the `perStep` page size,
`isFinished`, the in-flight load (if any) with its kind, the single
pending-refresh slot, and a count of loads started so far. -/
structure LoaderState (A : Type) where
  perStep : Nat
  items : List A
  pointer : Nat
  isFinished : Bool
  running : Option LoadKind
  pendingRefresh : Bool
  loadCount : Nat
deriving DecidableEq, Repr

/-- The freshly constructed loader for a given page size. -/
def initLoader (A : Type) (perStep : Nat) : LoaderState A :=
  { perStep := perStep, items := [], pointer := 0, isFinished := false,
    running := none, pendingRefresh := false, loadCount := 0 }

/-- Modelled from the spec: InfiniteLoader.next — a no-op while a load is
running or once finished; otherwise immediately starts a page load at
`pointer` with size `perStep`. -/
def InfiniteLoader.next {A : Type} (s : LoaderState A) : LoaderState A :=
  if s.running.isSome then s
  else if s.isFinished then s
  else { s with running := some LoadKind.nextLoad, loadCount := s.loadCount + 1 }

/-- Modelled from the spec: starting a refresh load — clear `items`, reset
`pointer`, clear `isFinished`, and start a load tagged as refreshing. -/
def startRefresh {A : Type} (s : LoaderState A) : LoaderState A :=
  { s with items := [], pointer := 0, isFinished := false,
           running := some LoadKind.refreshLoad, loadCount := s.loadCount + 1 }

/-- Modelled from the spec: InfiniteLoader.refresh — if idle, immediately
start a refresh load; if a load is already running, record a
pending-refresh request in the single last-write-wins slot. -/
def InfiniteLoader.refresh {A : Type} (s : LoaderState A) : LoaderState A :=
  if s.running.isSome then { s with pendingRefresh := true }
  else startRefresh s

/-- Result of one page load: success with the returned elements, or
failure. -/
inductive LoadResult (A : Type) where
  | success : List A → LoadResult A
  | failure : LoadResult A
deriving DecidableEq, Repr

/-- Modelled from the spec: settlement of the running load — on success
append the page, advance `pointer` by the number of elements returned, and
set `isFinished` iff strictly fewer than `perStep` elements came back;
then, if a refresh was pending, clear the slot and start the refresh
immediately. Returns `none` when no load is running. -/
def settleLoad {A : Type} (s : LoaderState A) (r : LoadResult A) :
    Option (LoaderState A) :=
  match s.running with
  | none => none
  | some _ =>
    let s1 :=
      match r with
      | .success page =>
        { s with items := s.items ++ page
                 pointer := s.pointer + page.length
                 isFinished := decide (page.length < s.perStep)
                 running := none }
      | .failure => { s with running := none }
    some (if s1.pendingRefresh then startRefresh { s1 with pendingRefresh := false }
          else s1)

/-- Iterated refresh calls. -/
def refreshN {A : Type} : Nat → LoaderState A → LoaderState A
  | 0, s => s
  | n + 1, s => refreshN n (InfiniteLoader.refresh s)

/-- Every chain source is an already-allocated promise id. -/
def ChainsBounded {P V : Type} (s : LadderState P V) : Prop :=
  ∀ c ∈ s.chains, c.1 < s.nextPromiseId

/-- Promise `q` can never be settled from state `s` on: it is an
already-allocated id that names no invocation promise, is not already
settled, is not the in-flight invocation, is not the queue slot's target,
and any chain pointing at it has a source other than the in-flight
invocation. -/
def Unreachable {P V : Type} (q : Nat) (s : LadderState P V) : Prop :=
  q < s.nextPromiseId ∧
  (∀ ip ∈ s.invocations, ip.1 ≠ q) ∧
  (∀ so ∈ s.settledPromises, so.1 ≠ q) ∧
  (∀ i, s.current = some i → i ≠ q) ∧
  (∀ t, s.trigger = some t → t.target ≠ q) ∧
  (∀ c ∈ s.chains, c.2 = q → ∀ i, s.current = some i → c.1 ≠ i)

theorem unreachable_run {P V : Type} {q : Nat} (s : LadderState P V) (p : P)
    (hb : ChainsBounded s) (hu : Unreachable q s) :
    ChainsBounded (LadderExecutor.run s p).2 ∧
      Unreachable q (LadderExecutor.run s p).2 := by
  obtain ⟨hlt, hinv, hset, hcur, htrig, hch⟩ := hu
  by_cases h : s.exec.isRunning = 0
  · simp only [LadderExecutor.run, h, if_pos, execRun]
    refine ⟨fun c hc => Nat.lt_succ_of_lt (hb c hc), Nat.lt_succ_of_lt hlt,
      ?_, hset, ?_, htrig, ?_⟩
    · intro ip hip
      rcases List.mem_append.1 hip with h1 | h1
      · exact hinv ip h1
      · simp only [List.mem_singleton] at h1
        subst h1
        exact Nat.ne_of_gt hlt
    · intro i hi
      injection hi with hi
      subst hi
      exact Nat.ne_of_gt hlt
    · intro c hc _ i hi
      injection hi with hi
      subst hi
      exact Nat.ne_of_lt (hb c hc)
  · simp only [LadderExecutor.run, h, if_neg, not_false_iff]
    refine ⟨fun c hc => Nat.lt_succ_of_lt (hb c hc), Nat.lt_succ_of_lt hlt,
      hinv, hset, hcur, ?_, hch⟩
    intro t ht
    injection ht with ht
    subst ht
    exact Nat.ne_of_gt hlt

theorem run_shape {P V : Type} (s : LadderState P V) (p : P) :
    (LadderExecutor.run s p).1 = s.nextPromiseId ∧
    (LadderExecutor.run s p).2.nextPromiseId = s.nextPromiseId + 1 ∧
    (LadderExecutor.run s p).2.chains = s.chains ∧
    (LadderExecutor.run s p).2.settledPromises = s.settledPromises := by
  by_cases h : s.exec.isRunning = 0 <;>
    simp [LadderExecutor.run, execRun, h]

theorem unreachable_bookkeep {P V : Type} {q i : Nat} {o : Outcome V}
    (s : LadderState P V) (hb : ChainsBounded s) (hu : Unreachable q s)
    (hc : s.current = some i) :
    ChainsBounded (bookkeep s i o) ∧ Unreachable q (bookkeep s i o) := by
  obtain ⟨hlt, hinv, hset, hcur, htrig, hch⟩ := hu
  refine ⟨hb, hlt, hinv, ?_, ?_, htrig, ?_⟩
  · intro so hso
    rcases List.mem_append.1 hso with h1 | h1
    · exact hset so h1
    · simp only [List.mem_singleton] at h1
      subst h1
      exact hcur i hc
  · intro j hj
    simp [bookkeep] at hj
  · intro c hcm hq2 j hj
    simp [bookkeep] at hj

theorem unreachable_fireTrigger {P V : Type} {q : Nat} (s : LadderState P V)
    (hb : ChainsBounded s) (hu : Unreachable q s) :
    (ChainsBounded (fireTrigger s).2 ∧ Unreachable q (fireTrigger s).2) ∧
    ∀ c ∈ (fireTrigger s).2.chains,
      c ∈ s.chains ∨ ∃ t, s.trigger = some t ∧ c.2 = t.target := by
  cases htr : s.trigger with
  | none =>
    obtain ⟨hlt, hinv, hset, hcur, htrig, hch⟩ := hu
    simp only [fireTrigger, htr]
    refine ⟨⟨hb, hlt, hinv, hset, hcur, ?_, hch⟩, fun c hc => Or.inl hc⟩
    intro t ht
    simp at ht
  | some t =>
    have hr := unreachable_run s t.params hb hu
    have hs := run_shape s t.params
    obtain ⟨hlt, hinv, hset, hcur, htrig, hch⟩ := hr.2
    simp only [fireTrigger, htr]
    refine ⟨⟨?_, hlt, hinv, hset, hcur, ?_, ?_⟩, ?_⟩
    · intro c hc
      rcases List.mem_append.1 hc with h1 | h1
      · exact hr.1 c h1
      · simp only [List.mem_singleton] at h1
        subst h1
        rw [hs.1, hs.2.1]
        exact Nat.lt_succ_self _
    · intro t' ht'
      simp at ht'
    · intro c hcm hq2 j hj
      rcases List.mem_append.1 hcm with h1 | h1
      · exact hch c h1 hq2 j hj
      · simp only [List.mem_singleton] at h1
        subst h1
        exact absurd hq2 (hu.2.2.2.2.1 t htr)
    · intro c hcm
      rcases List.mem_append.1 hcm with h1 | h1
      · rw [hs.2.2.1] at h1
        exact Or.inl h1
      · simp only [List.mem_singleton] at h1
        subst h1
        exact Or.inr ⟨t, rfl, rfl⟩

theorem unreachable_fireChain {P V : Type} {q i : Nat} {v : V}
    (s : LadderState P V) (hb : ChainsBounded s) (hu : Unreachable q s)
    (hq : ∀ c ∈ s.chains, c.1 = i → c.2 ≠ q) :
    ChainsBounded (fireChain s i v).2 ∧ Unreachable q (fireChain s i v).2 := by
  obtain ⟨hlt, hinv, hset, hcur, htrig, hch⟩ := hu
  cases hf : s.chains.find? (fun c => c.1 == i) with
  | none =>
    simp only [fireChain, hf]
    exact ⟨hb, hlt, hinv, hset, hcur, htrig, hch⟩
  | some c =>
    have hmem : c ∈ s.chains := List.mem_of_find?_eq_some hf
    have hceq : c.1 = i := by
      have := List.find?_some hf
      simpa using this
    simp only [fireChain, hf]
    refine ⟨hb, hlt, hinv, ?_, hcur, htrig, hch⟩
    intro so hso
    rcases List.mem_append.1 hso with h1 | h1
    · exact hset so h1
    · simp only [List.mem_singleton] at h1
      subst h1
      exact hq c hmem hceq

theorem unreachable_settle {P V : Type} {q : Nat} {o : Outcome V}
    {s : LadderState P V} {r : List (MicroEvent P) × LadderState P V}
    (hb : ChainsBounded s) (hu : Unreachable q s)
    (h : settle s o = some r) :
    ChainsBounded r.2 ∧ Unreachable q r.2 := by
  cases hcur : s.current with
  | none => simp [settle, hcur] at h
  | some i =>
    have hbk := unreachable_bookkeep (o := o) s hb hu hcur
    cases o with
    | failure =>
      simp only [settle, hcur, Option.some.injEq] at h
      subst h
      exact hbk
    | success v =>
      have hft := unreachable_fireTrigger (bookkeep s i (Outcome.success v))
        hbk.1 hbk.2
      have hq : ∀ c ∈ (fireTrigger (bookkeep s i (Outcome.success v))).2.chains,
          c.1 = i → c.2 ≠ q := by
        intro c hcm hci hq2
        rcases hft.2 c hcm with h1 | ⟨t, ht, h2⟩
        · exact hu.2.2.2.2.2 c h1 hq2 i hcur hci
        · have : t.target ≠ q := hu.2.2.2.2.1 t ht
          rw [h2] at hq2
          exact this hq2
      have hfc := unreachable_fireChain (v := v)
        (fireTrigger (bookkeep s i (Outcome.success v))).2 hft.1.1 hft.1.2 hq
      simp only [settle, hcur, Option.some.injEq] at h
      subst h
      exact hfc

theorem unreachable_step {P V : Type} {q : Nat} {e : Event P V}
    {s : LadderState P V} {r : List (MicroEvent P) × LadderState P V}
    (hb : ChainsBounded s) (hu : Unreachable q s)
    (h : stepEvent s e = some r) :
    ChainsBounded r.2 ∧ Unreachable q r.2 := by
  cases e with
  | runCall p =>
    simp only [stepEvent, Option.some.injEq] at h
    subst h
    exact unreachable_run s p hb hu
  | settleEv o => exact unreachable_settle hb hu h

theorem unreachable_runTrace {P V : Type} {q : Nat} {es : List (Event P V)}
    {s s' : LadderState P V}
    (hb : ChainsBounded s) (hu : Unreachable q s)
    (h : runTrace s es = some s') :
    ChainsBounded s' ∧ Unreachable q s' := by
  induction es generalizing s with
  | nil =>
    simp only [runTrace, Option.some.injEq] at h
    subst h
    exact ⟨hb, hu⟩
  | cons e es ih =>
    simp only [runTrace] at h
    cases hst : stepEvent s e with
    | none => rw [hst] at h; simp at h
    | some r =>
      rw [hst] at h
      have hr := unreachable_step hb hu hst
      exact ih hr.1 hr.2 h

theorem fireChain_shape {P V : Type} (s : LadderState P V) (i : Nat) (v : V) :
    (fireChain s i v).2.invocations = s.invocations ∧
    (fireChain s i v).2.trigger = s.trigger ∧
    (fireChain s i v).2.current = s.current ∧
    (fireChain s i v).2.exec = s.exec ∧
    (fireChain s i v).2.chains = s.chains ∧
    (fireChain s i v).2.nextPromiseId = s.nextPromiseId := by
  cases hf : s.chains.find? (fun c => c.1 == i) <;> simp [fireChain, hf]

theorem settle_failure_eq {P V : Type} (s : LadderState P V) (i : Nat)
    (hc : s.current = some i) :
    settle s Outcome.failure =
      some ([MicroEvent.settled i], bookkeep s i Outcome.failure) := by
  simp [settle, hc]

theorem settle_success_with_trigger {P V : Type} (s : LadderState P V)
    (i : Nat) (t : Trigger P) (v : V)
    (hc : s.current = some i) (ht : s.trigger = some t)
    (hr : s.exec.isRunning = 1) :
    (settle s (Outcome.success v)).isSome ∧
    ∀ r, settle s (Outcome.success v) = some r →
      (∃ tail, r.1 = MicroEvent.settled i ::
          MicroEvent.started s.nextPromiseId t.params (some t) ::
          MicroEvent.slotCleared :: tail) ∧
      r.2.invocations = s.invocations ++ [(s.nextPromiseId, t.params)] ∧
      r.2.trigger = none ∧
      r.2.exec.runCount = s.exec.runCount + 1 ∧
      r.2.chains = s.chains ++ [(s.nextPromiseId, t.target)] := by
  have h0 : (bookkeep s i (Outcome.success v)).trigger = some t := ht
  have h1 : (bookkeep s i (Outcome.success v)).exec.isRunning = 0 := by
    show s.exec.isRunning - 1 = 0
    rw [hr]
  constructor
  · simp [settle, hc]
  · intro r hE
    simp only [settle, hc, Option.some.injEq] at hE
    subst hE
    refine ⟨⟨(fireChain (fireTrigger (bookkeep s i (Outcome.success v))).2 i v).1,
        ?_⟩, ?_, ?_, ?_, ?_⟩ <;>
      simp [fireTrigger, h0, LadderExecutor.run, h1, execRun, fireChain_shape,
        bookkeep, ht, hr]

/-- The state reached from a fresh executor by `run 10` followed by
`run 20` while the first invocation is still in flight: invocation 0 is
running, caller of `run 20` holds promise 1, queued in the slot. -/
def ladderS1 : LadderState Nat Nat :=
  { exec := { isRunning := 1, runCount := 1, wasRun := true, wasRunFine := false,
              wasRunBad := false, wasLastRunFine := true }
    trigger := some ⟨20, 1⟩
    nextPromiseId := 2
    invocations := [(0, 10)]
    current := some 0
    chains := []
    settledPromises := [] }

theorem ladderS1_reachable :
    runTrace (initLadder Nat Nat) [Event.runCall 10, Event.runCall 20] =
      some ladderS1 := by
  rfl

/-- The state after `ladderS1`'s in-flight invocation settles successfully
with 5: the follow-up invocation 2 (parameters 20) is in flight, chained
to the queued caller's promise 1. -/
def ladderS2 : LadderState Nat Nat :=
  { exec := { isRunning := 1, runCount := 2, wasRun := true, wasRunFine := true,
              wasRunBad := false, wasLastRunFine := true }
    trigger := none
    nextPromiseId := 3
    invocations := [(0, 10), (2, 20)]
    current := some 2
    chains := [(2, 1)]
    settledPromises := [(0, Outcome.success 5)] }

theorem ladderS2_reachable :
    runTrace (initLadder Nat Nat)
      [Event.runCall 10, Event.runCall 20, Event.settleEv (Outcome.success 5)] =
      some ladderS2 := by
  rfl

/-- A loader (page size 2) that has loaded one full page and is in the
middle of its second `next` load. -/
def loaderS1 : LoaderState Nat :=
  { perStep := 2, items := [1, 2], pointer := 2, isFinished := false,
    running := some LoadKind.nextLoad, pendingRefresh := false, loadCount := 2 }

theorem loaderS1_reachable :
    (settleLoad (InfiniteLoader.next (initLoader Nat 2))
        (LoadResult.success [1, 2])).map InfiniteLoader.next = some loaderS1 := by
  rfl

/-- C6: a `run` call made while the executor is not running starts exactly
one underlying invocation immediately and synchronously, queues nothing,
and returns exactly the promise produced by the base Executor's `run` for
that invocation. -/
theorem ladder_idle_run_delegates {P V : Type} (s : LadderState P V) (p : P)
    (h : s.exec.isRunning = 0) :
    LadderExecutor.run s p = execRun s p ∧
    (LadderExecutor.run s p).1 = s.nextPromiseId ∧
    (LadderExecutor.run s p).2.invocations =
      s.invocations ++ [(s.nextPromiseId, p)] ∧
    (LadderExecutor.run s p).2.exec.runCount = s.exec.runCount + 1 ∧
    (LadderExecutor.run s p).2.trigger = s.trigger := by
  simp [LadderExecutor.run, execRun, h]

theorem ladder_idle_run_delegates_witness :
    (initLadder Nat Nat).exec.isRunning = 0 ∧
    LadderExecutor.run (initLadder Nat Nat) 7 = execRun (initLadder Nat Nat) 7 ∧
    (LadderExecutor.run (initLadder Nat Nat) 7).1 = 0 :=
  ⟨rfl, (ladder_idle_run_delegates (initLadder Nat Nat) 7 rfl).1,
    (ladder_idle_run_delegates (initLadder Nat Nat) 7 rfl).2.1⟩

/-- C3: three `run` calls issued while the first invocation is in flight
coalesce — at most one pending follow-up, last write wins — so that once
both settlements have happened exactly two underlying invocations have
occurred, and the second one carries the parameters of the last queued
call. -/
theorem ladder_three_calls_coalesce {P V : Type} (p1 p2 p3 p4 : P) (v1 v2 : V) :
    ∃ smid sfin : LadderState P V,
      runTrace (initLadder P V)
        [Event.runCall p1, Event.runCall p2, Event.runCall p3,
         Event.runCall p4] = some smid ∧
      smid.trigger = some ⟨p4, 3⟩ ∧
      smid.exec.runCount = 1 ∧
      runTrace smid
        [Event.settleEv (Outcome.success v1),
         Event.settleEv (Outcome.success v2)] = some sfin ∧
      sfin.exec.runCount = 2 ∧
      sfin.invocations = [(0, p1), (4, p4)] := by
  exact ⟨_, _, rfl, rfl, rfl, rfl, rfl, rfl⟩

/-- C10: when the in-flight invocation fails while a follow-up is queued,
the slot is not cleared — the stale trigger survives, and a later `run`
issued while idle, once it succeeds, fires the stale follow-up with its
old parameters. -/
theorem ladder_stale_trigger_fires_later {P V : Type} (p1 p2 p3 : P) (v : V) :
    ∃ s3 sfin : LadderState P V,
      runTrace (initLadder P V)
        [Event.runCall p1, Event.runCall p2, Event.settleEv Outcome.failure] =
        some s3 ∧
      s3.trigger = some ⟨p2, 1⟩ ∧
      s3.exec.isRunning = 0 ∧
      s3.invocations = [(0, p1)] ∧
      runTrace s3 [Event.runCall p3, Event.settleEv (Outcome.success v)] =
        some sfin ∧
      sfin.invocations = [(0, p1), (2, p3), (3, p2)] ∧
      sfin.trigger = none := by
  exact ⟨_, _, rfl, rfl, rfl, rfl, rfl, rfl, rfl⟩

/-- C1 counterexample: after `run 10` and `run 20` a follow-up is queued
(slot holds `⟨20, 1⟩`) while invocation 0 is in flight; the in-flight
invocation then settles with a failure, yet no follow-up starts at that
settlement — `runCount` stays 1, the only invocation ever started is the
original, and the trigger is still sitting in the slot. This contradicts
the claim that the follow-up starts at the settlement regardless of
whether the invocation succeeded or failed. -/
theorem ladder_failure_blocks_followup_cex :
    (runTrace (initLadder Nat Nat)
        [Event.runCall 10, Event.runCall 20]).map
      (fun s => (s.trigger, s.current)) = some (some ⟨20, 1⟩, some 0) ∧
    (runTrace (initLadder Nat Nat)
        [Event.runCall 10, Event.runCall 20,
         Event.settleEv Outcome.failure]).map
      (fun s => (s.trigger, s.exec.runCount, s.invocations)) =
      some (some ⟨20, 1⟩, 1, [(0, 10)]) :=
  ⟨rfl, rfl⟩

/-- C1 (amended): with a follow-up queued and an invocation in flight, the
follow-up starts exactly at the settlement when the invocation succeeds —
and never before the settlement, since a `run` call made while running
starts nothing — but when the invocation fails the follow-up does not
start at that settlement and remains queued. -/
theorem ladder_followup_on_success_only {P V : Type} (s : LadderState P V)
    (i : Nat) (t : Trigger P)
    (hc : s.current = some i) (ht : s.trigger = some t)
    (hr : s.exec.isRunning = 1) :
    (∀ v : V, (settle s (Outcome.success v)).isSome ∧
      ∀ r, settle s (Outcome.success v) = some r →
        MicroEvent.started s.nextPromiseId t.params (some t) ∈ r.1 ∧
        r.2.invocations = s.invocations ++ [(s.nextPromiseId, t.params)]) ∧
    (∀ r, settle s Outcome.failure = some r →
        r.1 = [MicroEvent.settled i] ∧
        r.2.invocations = s.invocations ∧
        r.2.trigger = some t) ∧
    (∀ p : P, (LadderExecutor.run s p).2.invocations = s.invocations) := by
  refine ⟨fun v => ⟨(settle_success_with_trigger s i t v hc ht hr).1, ?_⟩,
    ?_, ?_⟩
  · intro r hE
    obtain ⟨⟨tail, h1⟩, h2, _, _, _⟩ :=
      (settle_success_with_trigger s i t v hc ht hr).2 r hE
    refine ⟨?_, h2⟩
    rw [h1]
    simp
  · intro r hE
    rw [settle_failure_eq s i hc] at hE
    simp only [Option.some.injEq] at hE
    subst hE
    exact ⟨rfl, rfl, ht⟩
  · intro p
    simp [LadderExecutor.run, hr]

theorem ladder_followup_on_success_only_witness :
    (ladderS1.current = some 0 ∧ ladderS1.trigger = some ⟨20, 1⟩ ∧
      ladderS1.exec.isRunning = 1) ∧
    (settle ladderS1 (Outcome.success 5)).isSome ∧
    (LadderExecutor.run ladderS1 30).2.invocations = ladderS1.invocations :=
  ⟨⟨rfl, rfl, rfl⟩,
   ((ladder_followup_on_success_only ladderS1 0 ⟨20, 1⟩ rfl rfl rfl).1 5).1,
   (ladder_followup_on_success_only ladderS1 0 ⟨20, 1⟩ rfl rfl rfl).2.2 30⟩

/-- C5 counterexample: at the settlement of `ladderS1`'s in-flight
invocation, the emitted micro-events show the follow-up invocation 2
starting while the queue slot still holds the fired trigger `⟨20, 1⟩`
(the `started` event records the slot contents at that exact moment, and
the slot write to empty comes only afterwards) — contradicting the claim
that the slot is cleared before the follow-up starts. -/
theorem ladder_slot_not_cleared_before_start_cex :
    (settle ladderS1 (Outcome.success 5)).map Prod.fst =
      some [MicroEvent.settled 0, MicroEvent.started 2 20 (some ⟨20, 1⟩),
            MicroEvent.slotCleared] :=
  rfl

/-- C5 (amended): when a queued follow-up is started at a settlement, the
follow-up starts while the queue slot still holds its trigger; the slot
is written to empty immediately afterwards — the very next action within
the same settlement — so the slot is empty by the end of the settlement. -/
theorem ladder_slot_cleared_right_after_start {P V : Type}
    (s : LadderState P V) (i : Nat) (t : Trigger P) (v : V)
    (hc : s.current = some i) (ht : s.trigger = some t)
    (hr : s.exec.isRunning = 1) :
    ∀ r, settle s (Outcome.success v) = some r →
      (∃ tail, r.1 = MicroEvent.settled i ::
          MicroEvent.started s.nextPromiseId t.params (some t) ::
          MicroEvent.slotCleared :: tail) ∧
      r.2.trigger = none := by
  intro r hE
  obtain ⟨h1, _, h3, _, _⟩ :=
    (settle_success_with_trigger s i t v hc ht hr).2 r hE
  exact ⟨h1, h3⟩

theorem ladder_slot_cleared_right_after_start_witness :
    (settle ladderS1 (Outcome.success 5)).map (fun r => r.2.trigger) =
      some none := by
  cases hE : settle ladderS1 (Outcome.success 5) with
  | none => exact absurd hE (by decide)
  | some r =>
    obtain ⟨_, h2⟩ :=
      ladder_slot_cleared_right_after_start ladderS1 0 ⟨20, 1⟩ 5 rfl rfl rfl
        r hE
    simp [h2]

theorem fireTrigger_chains {P V : Type} (s : LadderState P V) :
    (fireTrigger s).2.chains = s.chains ∨
    ∃ t, s.trigger = some t ∧
      (fireTrigger s).2.chains = s.chains ++ [(s.nextPromiseId, t.target)] := by
  cases htr : s.trigger with
  | none =>
    left
    simp [fireTrigger, htr]
  | some t =>
    right
    refine ⟨t, rfl, ?_⟩
    simp only [fireTrigger, htr]
    rw [(run_shape s t.params).2.2.1, (run_shape s t.params).1]

/-- C2 counterexample: the queued caller of `run 20` holds promise 1,
chained (`.then(resolve)`) to the follow-up invocation 2; the follow-up
fails, yet after everything has settled the settlement log contains no
entry for promise 1 — the failure was not resurfaced to that caller
(their deferred result never settles at all). -/
theorem ladder_followup_failure_swallowed_cex :
    (runTrace (initLadder Nat Nat)
        [Event.runCall 10, Event.runCall 20,
         Event.settleEv (Outcome.success 5),
         Event.settleEv Outcome.failure]).map
      (fun s => (s.chains, s.settledPromises)) =
      some ([(2, 1)], [(0, Outcome.success 5), (2, Outcome.failure)]) :=
  rfl

/-- C2 (amended): for a surviving queued caller (promise `q`, chained to
follow-up invocation `j`), a successful follow-up settles `q` with that
success value at that settlement; but a failing follow-up never settles
`q` — not at that settlement nor after any sequence of further events:
the failure is swallowed with respect to that caller. -/
theorem ladder_surviving_caller_gets_success_only {P V : Type}
    (s : LadderState P V) (j q : Nat)
    (hc : s.current = some j)
    (hfind : s.chains.find? (fun c => c.1 == j) = some (j, q))
    (hb : ChainsBounded s)
    (hlt : q < s.nextPromiseId)
    (hinv : ∀ ip ∈ s.invocations, ip.1 ≠ q)
    (hset : ∀ so ∈ s.settledPromises, so.1 ≠ q)
    (hne : q ≠ j)
    (htrig : ∀ t, s.trigger = some t → t.target ≠ q) :
    (∀ v : V, ∀ r, settle s (Outcome.success v) = some r →
        (q, Outcome.success v) ∈ r.2.settledPromises) ∧
    (∀ r, settle s Outcome.failure = some r →
        (∀ o, (q, o) ∉ r.2.settledPromises) ∧
        ∀ es s', runTrace r.2 es = some s' →
          ∀ o, (q, o) ∉ s'.settledPromises) := by
  constructor
  · intro v r hE
    simp only [settle, hc, Option.some.injEq] at hE
    subst hE
    have hch : (fireTrigger (bookkeep s j (Outcome.success v))).2.chains.find?
        (fun c => c.1 == j) = some (j, q) := by
      rcases fireTrigger_chains (bookkeep s j (Outcome.success v)) with h | ⟨t, _, h⟩
      · rw [h]
        exact hfind
      · rw [h, List.find?_append]
        have hfind2 : (bookkeep s j (Outcome.success v)).chains.find?
            (fun c => c.1 == j) = some (j, q) := hfind
        rw [hfind2]
        rfl
    simp only [fireChain, hch]
    simp
  · intro r hE
    rw [settle_failure_eq s j hc] at hE
    simp only [Option.some.injEq] at hE
    subst hE
    have hu : Unreachable q (bookkeep s j Outcome.failure) := by
      refine ⟨hlt, hinv, ?_, ?_, htrig, ?_⟩
      · intro so hso
        rcases List.mem_append.1 hso with h1 | h1
        · exact hset so h1
        · simp only [List.mem_singleton] at h1
          subst h1
          exact hne.symm
      · intro i hi
        simp [bookkeep] at hi
      · intro c hcm hq2 i hi
        simp [bookkeep] at hi
    have hcb : ChainsBounded (bookkeep s j Outcome.failure) := hb
    constructor
    · intro o hmem
      exact absurd rfl (hu.2.2.1 (q, o) hmem)
    · intro es s' htrc o hmem
      have h := unreachable_runTrace hcb hu htrc
      exact absurd rfl (h.2.2.2.1 (q, o) hmem)

theorem ladder_surviving_caller_gets_success_only_witness :
    ((1 : Nat), Outcome.success (7 : Nat)) ∈
      ((settle ladderS2 (Outcome.success 7)).getD
        ([], initLadder Nat Nat)).2.settledPromises :=
  (ladder_surviving_caller_gets_success_only ladderS2 2 1 rfl rfl
    (by unfold ChainsBounded; decide) (by decide) (by decide) (by decide)
    (by decide) (fun t ht => Option.noConfusion ht)).1 7 _ rfl

/-- C4: a caller whose queued request is overwritten by a later `run` call
before the in-flight invocation settles is never notified — the promise
returned to the superseded caller is settled by no later event sequence
whatsoever. -/
theorem ladder_superseded_caller_never_settled {P V : Type}
    (s : LadderState P V) (t : Trigger P) (p : P)
    (es : List (Event P V)) (s' : LadderState P V)
    (hrun : s.exec.isRunning ≠ 0)
    (_htr : s.trigger = some t)
    (hb : ChainsBounded s)
    (hlt : t.target < s.nextPromiseId)
    (hinv : ∀ ip ∈ s.invocations, ip.1 ≠ t.target)
    (hset : ∀ so ∈ s.settledPromises, so.1 ≠ t.target)
    (hcur : ∀ i, s.current = some i → i ≠ t.target)
    (hch : ∀ c ∈ s.chains, c.2 ≠ t.target)
    (htrace : runTrace (LadderExecutor.run s p).2 es = some s') :
    ∀ o, (t.target, o) ∉ s'.settledPromises := by
  have hrunEq : (LadderExecutor.run s p).2 =
      { s with nextPromiseId := s.nextPromiseId + 1,
               trigger := some ⟨p, s.nextPromiseId⟩ } := by
    simp [LadderExecutor.run, hrun]
  rw [hrunEq] at htrace
  have hb2 : ChainsBounded
      ({ s with nextPromiseId := s.nextPromiseId + 1,
                trigger := some ⟨p, s.nextPromiseId⟩ } : LadderState P V) :=
    fun c hc => Nat.lt_succ_of_lt (hb c hc)
  have hu2 : Unreachable t.target
      ({ s with nextPromiseId := s.nextPromiseId + 1,
                trigger := some ⟨p, s.nextPromiseId⟩ } : LadderState P V) := by
    refine ⟨Nat.lt_succ_of_lt hlt, hinv, hset, hcur, ?_, ?_⟩
    · intro t' ht'
      simp only [Option.some.injEq] at ht'
      subst ht'
      exact Nat.ne_of_gt hlt
    · intro c hcm hq2 i hi
      exact absurd hq2 (hch c hcm)
  have h := unreachable_runTrace hb2 hu2 htrace
  intro o hmem
  exact absurd rfl (h.2.2.2.1 (t.target, o) hmem)

theorem ladder_superseded_caller_never_settled_witness :
    ((1 : Nat), (Outcome.failure : Outcome Nat)) ∉
      ((runTrace (LadderExecutor.run ladderS1 30).2
          [Event.settleEv (Outcome.success 5),
           Event.settleEv (Outcome.success 6)]).getD
        (initLadder Nat Nat)).settledPromises :=
  ladder_superseded_caller_never_settled ladderS1 ⟨20, 1⟩ 30
    [Event.settleEv (Outcome.success 5), Event.settleEv (Outcome.success 6)]
    ((runTrace (LadderExecutor.run ladderS1 30).2
        [Event.settleEv (Outcome.success 5),
         Event.settleEv (Outcome.success 6)]).getD (initLadder Nat Nat))
    (by decide) rfl (by unfold ChainsBounded; decide) (by decide) (by decide)
    (by decide) (by simp [ladderS1]) (by decide) rfl Outcome.failure

theorem refreshN_running {A : Type} (n : Nat) (s : LoaderState A)
    (h : s.running.isSome) :
    refreshN (n + 1) s = { s with pendingRefresh := true } := by
  induction n generalizing s with
  | zero => simp [refreshN, InfiniteLoader.refresh, h]
  | succ n ih =>
    have h2 : InfiniteLoader.refresh s = { s with pendingRefresh := true } := by
      simp [InfiniteLoader.refresh, h]
    calc refreshN (n + 2) s = refreshN (n + 1) (InfiniteLoader.refresh s) := rfl
      _ = { InfiniteLoader.refresh s with pendingRefresh := true } :=
        ih _ (by rw [h2]; exact h)
      _ = { s with pendingRefresh := true } := by rw [h2]

/-- C7: any positive number of `refresh()` calls issued while a load is
running collapse into the single pending-refresh slot — the resulting
state is the same whatever the number of calls, no load starts and the
load count does not change — and when the running load then settles
(success or failure) exactly one refresh load starts: the load count goes
up by exactly one and a refresh-tagged load is in flight with cleared
items, pointer and slot. -/
theorem loader_refresh_coalesces {A : Type} (s : LoaderState A) (n : Nat)
    (h : s.running.isSome) :
    refreshN (n + 1) s = { s with pendingRefresh := true } ∧
    ∀ r : LoadResult A,
      (settleLoad { s with pendingRefresh := true } r).isSome ∧
      ∀ s', settleLoad { s with pendingRefresh := true } r = some s' →
        s'.running = some LoadKind.refreshLoad ∧
        s'.loadCount = s.loadCount + 1 ∧
        s'.pendingRefresh = false ∧
        s'.items = [] ∧ s'.pointer = 0 := by
  obtain ⟨k, hk⟩ := Option.isSome_iff_exists.mp h
  refine ⟨refreshN_running n s h, ?_⟩
  intro r
  cases r with
  | success page =>
    constructor
    · simp [settleLoad, hk]
    · intro s' hE
      simp only [settleLoad, hk, Option.some.injEq] at hE
      subst hE
      simp [startRefresh]
  | failure =>
    constructor
    · simp [settleLoad, hk]
    · intro s' hE
      simp only [settleLoad, hk, Option.some.injEq] at hE
      subst hE
      simp [startRefresh]

theorem loader_refresh_coalesces_witness :
    refreshN 3 loaderS1 = { loaderS1 with pendingRefresh := true } ∧
    ((settleLoad { loaderS1 with pendingRefresh := true }
        (LoadResult.success [5])).getD (initLoader Nat 2)).running =
      some LoadKind.refreshLoad ∧
    ((settleLoad { loaderS1 with pendingRefresh := true }
        (LoadResult.success [5])).getD (initLoader Nat 2)).loadCount = 3 := by
  have h := loader_refresh_coalesces loaderS1 2 (by decide)
  have h2 := (h.2 (LoadResult.success [5])).2 _ rfl
  exact ⟨h.1, h2.1, h2.2.1⟩

/-- C8: a `next()` call issued while a load is in flight is ignored
entirely — the state is unchanged, so nothing starts, nothing is queued
and the number of loads started does not increase; only a later `next()`
after settlement can make progress. -/
theorem loader_next_ignored_while_running {A : Type} (s : LoaderState A)
    (h : s.running.isSome) :
    InfiniteLoader.next s = s := by
  simp [InfiniteLoader.next, h]

theorem loader_next_ignored_while_running_witness :
    InfiniteLoader.next loaderS1 = loaderS1 :=
  loader_next_ignored_while_running loaderS1 (by decide)

/-- C9: after a successful page load (with no refresh pending), the loader
is finished exactly when the page holds strictly fewer elements than
`perStep`; a page of exactly `perStep` elements never marks the loader
finished; the page is appended and the pointer advances by its length. -/
theorem loader_finished_iff_short_page {A : Type} (s : LoaderState A)
    (k : LoadKind) (page : List A)
    (hr : s.running = some k) (hp : s.pendingRefresh = false) :
    (settleLoad s (LoadResult.success page)).isSome ∧
    ∀ s', settleLoad s (LoadResult.success page) = some s' →
      (s'.isFinished = true ↔ page.length < s.perStep) ∧
      (page.length = s.perStep → s'.isFinished = false) ∧
      s'.items = s.items ++ page ∧
      s'.pointer = s.pointer + page.length := by
  constructor
  · simp [settleLoad, hr]
  · intro s' hE
    simp only [settleLoad, hr, hp, Bool.false_eq_true, if_false,
      Option.some.injEq] at hE
    subst hE
    refine ⟨by simp, ?_, rfl, rfl⟩
    intro hl
    simp [hl]

theorem loader_finished_iff_short_page_witness :
    ((settleLoad loaderS1 (LoadResult.success [7])).getD
        (initLoader Nat 2)).isFinished = true ∧
    ((settleLoad loaderS1 (LoadResult.success [8, 9])).getD
        (initLoader Nat 2)).isFinished = false := by
  have h1 := (loader_finished_iff_short_page loaderS1 LoadKind.nextLoad [7]
    rfl rfl).2 _ rfl
  have h2 := (loader_finished_iff_short_page loaderS1 LoadKind.nextLoad [8, 9]
    rfl rfl).2 _ rfl
  exact ⟨h1.1.mpr (by decide), h2.2.1 (by decide)⟩
